import Mathlib

/-!
# tiny.spi : software UART, time base and USI bus primitive

A shallow embedding of `src/spi.c` (ATtiny84 firmware).  Machine integers are
natural numbers reduced modulo `2^w` wherever the C code can wrap.
-/

namespace TinySpi

/-! ## Registers and globals -/

/-- Bit number of `PB0` in `PORTB` (device header `avr/io.h`). -/
def PB0 : Nat := 0

/-- Source: `#define TX PB0`. -/
def TX : Nat := PB0

/-- Source: `#define cbi(sfr, bit) (_SFR_BYTE(sfr) &= ~_BV(bit))`, on an 8-bit register. -/
def cbi (sfr bit : Nat) : Nat := sfr &&& (0xFF ^^^ (1 <<< bit))

/-- Source: `#define sbi(sfr, bit) (_SFR_BYTE(sfr) |= _BV(bit))`, on an 8-bit register. -/
def sbi (sfr bit : Nat) : Nat := (sfr ||| (1 <<< bit)) % 256

/-- The globals of `spi.c` touched by the interrupt handler and the serial routines,
together with `PORTB` and the global interrupt-enable flag of `SREG`. -/
structure Machine where
  /-- Source: `volatile uint64_t _millis`. -/
  _millis : Nat
  /-- Source: `volatile uint16_t _1000us`. -/
  _1000us : Nat
  /-- Source: `volatile uint8_t tx_buzy`. -/
  tx_buzy : Nat
  /-- Source: `volatile uint8_t bit_index`. -/
  bit_index : Nat
  /-- Source: `volatile uint8_t _tx_buffer`. -/
  _tx_buffer : Nat
  /-- I/O register `PORTB`. -/
  PORTB : Nat
  /-- Global interrupt-enable bit of `SREG`, written by `cli()` and `sei()`. -/
  SREG_I : Bool
deriving DecidableEq

/-- Level of the TX pin: bit `TX` of `PORTB`. -/
def txLine (s : Machine) : Bool := s.PORTB.testBit TX

/-! ## The timer interrupt -/

/-- Software UART part of `ISR(TIM0_COMPA_vect)` (lines 77-95). -/
def uart_update (s : Machine) : Machine :=
  if s.tx_buzy ≠ 0 then
    let s1 :=
      if s.bit_index = 0 then
        { s with PORTB := cbi s.PORTB TX }
      else if s.bit_index ≤ 8 then
        let s2 :=
          if s._tx_buffer &&& 1 ≠ 0 then { s with PORTB := sbi s.PORTB TX }
          else { s with PORTB := cbi s.PORTB TX }
        { s2 with _tx_buffer := s2._tx_buffer >>> 1 }
      else if s.bit_index ≥ 9 then
        { s with PORTB := sbi s.PORTB TX, tx_buzy := 0 }
      else s
    { s1 with bit_index := (s1.bit_index + 1) % 256 }
  else s

/-- The loop `while (_1000us > 1000) { _millis++; _1000us -= 1000; }`.
The first argument bounds the number of iterations still allowed; the result carries
the number of iterations performed. -/
def while_1000us : Nat → Machine → Nat × Machine
  | 0, s => (0, s)
  | fuel + 1, s =>
    if s._1000us > 1000 then
      let r := while_1000us fuel
        { s with _millis := (s._millis + 1) % 2 ^ 64, _1000us := s._1000us - 1000 }
      (r.1 + 1, r.2)
    else (0, s)

/-- The statement `_1000us += 103;` on the 16-bit accumulator. -/
def add_103 (s : Machine) : Machine :=
  { s with _1000us := (s._1000us + 103) % 2 ^ 16 }

/-- Time base part of `ISR(TIM0_COMPA_vect)` (lines 97-101).  The loop subtracts 1000
from `_1000us` at each iteration, so `_1000us` itself bounds the iteration count. -/
def millis_update (s : Machine) : Machine :=
  (while_1000us (add_103 s)._1000us (add_103 s)).2

/-- Source: `ISR(TIM0_COMPA_vect)`, run every 103 us. -/
def ISR (s : Machine) : Machine := millis_update (uart_update s)

/-- State after `n` timer interrupts with no main-context write in between. -/
def ticks : Nat → Machine → Machine
  | 0, s => s
  | n + 1, s => ticks n (ISR s)

/-- TX line levels observed after each of the next `n` timer interrupts. -/
def sampleTicks : Nat → Machine → List Bool
  | 0, _ => []
  | n + 1, s => txLine (ISR s) :: sampleTicks n (ISR s)

/-- Zero-initialised globals (C static storage), idle-high TX line, interrupts enabled
as left by `setup()`. -/
def init : Machine :=
  { _millis := 0, _1000us := 0, tx_buzy := 0, bit_index := 0, _tx_buffer := 0,
    PORTB := 3, SREG_I := true }

/-! ## Serial output routines (main context) -/

/-- Observable events of the serial routines, in time order: a timer interrupt that
fired while the main context was spinning (with the TX level it left), and the
hand-over of a byte to the transmitter by `serial_write`. -/
inductive Event where
  | tick (line : Bool)
  | queue (b : Nat)
deriving DecidableEq

/-- The three stores of `serial_write` after its busy-wait (lines 107-109). -/
def load_byte (tx_byte : Nat) (s : Machine) : Machine :=
  { s with bit_index := 0, _tx_buffer := tx_byte, tx_buzy := 1 }

/-- The busy-wait `while(tx_buzy);` of `serial_write`: the main context spins and only
timer interrupts change the state.  The first argument bounds the number of interrupts
waited for; `none` means the flag was still set when the bound ran out. -/
def wait_idle : Nat → Machine → Option (List Event × Machine)
  | 0, s => if s.tx_buzy ≠ 0 then none else some ([], s)
  | fuel + 1, s =>
    if s.tx_buzy ≠ 0 then
      match wait_idle fuel (ISR s) with
      | none => none
      | some (ev, t) => some (Event.tick (txLine (ISR s)) :: ev, t)
    else some ([], s)

/-- Source: `serial_write`. -/
def serial_write (fuel : Nat) (tx_byte : Nat) (s : Machine) : Option (List Event × Machine) :=
  match wait_idle fuel s with
  | none => none
  | some (ev, t) => some (ev ++ [Event.queue tx_byte], load_byte tx_byte t)

/-- The 8N1 frame the specification expects on the TX line for byte `b`: start bit low, the eight
data bits least-significant first, stop bit high. -/
def expected_frame (b : Nat) : List Bool :=
  false :: ((List.range 8).map fun i => b.testBit i) ++ [true]

/-- Source: the loop of `serial_print`, entered with index `i`.  `str` lists the bytes in
memory from `str[0]` on, the byte after the listed ones being the terminating NUL.  The
index is a `uint8_t`, so `i++` is taken modulo 256.  `wfuel` bounds each busy-wait, the
third argument the number of loop tests; `none` means a bound ran out. -/
def serial_print_loop (wfuel : Nat) (str : List Nat) : Nat → Nat → Machine →
    Option (List Event × Machine)
  | 0, _, _ => none
  | fuel + 1, i, s =>
    if str.getD i 0 ≠ 0 then
      match serial_write wfuel (str.getD i 0) s with
      | none => none
      | some (ev, s1) =>
        match serial_print_loop wfuel str fuel ((i + 1) % 256) s1 with
        | none => none
        | some (ev2, s2) => some (ev ++ ev2, s2)
    else some ([], s)

/-- Source: `serial_print`. -/
def serial_print (wfuel fuel : Nat) (str : List Nat) (s : Machine) :
    Option (List Event × Machine) :=
  serial_print_loop wfuel str fuel 0 s

/-- The bytes handed to the transmitter in a list of events, in order. -/
def queued : List Event → List Nat
  | [] => []
  | Event.tick _ :: ev => queued ev
  | Event.queue b :: ev => b :: queued ev

/-- A step of the interleaving of the two execution contexts: a timer interrupt, or a
`serial_write` call getting past its busy-wait. -/
inductive Action where
  | tick
  | write (b : Nat)
deriving DecidableEq

/-- Effect of one action.  A `serial_write` only stores once `tx_buzy` reads zero; until
then the call is spinning and changes nothing. -/
def Action.apply : Action → Machine → Machine
  | Action.tick, s => ISR s
  | Action.write b, s => if s.tx_buzy ≠ 0 then s else load_byte b s

/-- State after a sequence of actions, first action first. -/
def run : List Action → Machine → Machine
  | [], s => s
  | a :: as, s => run as (a.apply s)

/-! ## The time base accessor -/

/-- The instruction `cli()`. -/
def cli (s : Machine) : Machine := { s with SREG_I := false }

/-- The instruction `sei()`. -/
def sei (s : Machine) : Machine := { s with SREG_I := true }

/-- Source: `millis()`; returns the value read and the machine state on return. -/
def millis (s : Machine) : Nat × Machine :=
  let s1 := cli s
  let m := s1._millis
  let s2 := sei s1
  (m, s2)

/-! ## The USI bus primitive -/

/-- Bit numbers of the USI registers (device header `avr/io.h`, ATtiny84). -/
def USIOIF : Nat := 6

/-- Bit number of `USIWM0` in `USICR` (device header). -/
def USIWM0 : Nat := 4

/-- Bit number of `USICS1` in `USICR` (device header). -/
def USICS1 : Nat := 3

/-- Bit number of `USICLK` in `USICR` (device header). -/
def USICLK : Nat := 1

/-- Bit number of `USITC` in `USICR` (device header). -/
def USITC : Nat := 0

/-- Register-level access to a USI peripheral with state `σ`: what the firmware can do
to the hardware.  The hardware itself is not part of the firmware source. -/
structure UsiPort (σ : Type) where
  /-- Effect of the store `USIDR = v`. -/
  write_USIDR : Nat → σ → σ
  /-- Value read from `USIDR`. -/
  read_USIDR : σ → Nat
  /-- Value read from `USISR`. -/
  read_USISR : σ → Nat
  /-- Effect of the store `USISR = v`. -/
  write_USISR : Nat → σ → σ
  /-- Effect of the store `USICR = v`. -/
  write_USICR : Nat → σ → σ

/-- Source: the value `(1<<USIWM0) | (1<<USICS1) | (1<<USICLK) | (1<<USITC)` stored to
`USICR` in the loop of `spi_transfer`. -/
def USICR_strobe : Nat :=
  (1 <<< USIWM0) ||| (1 <<< USICS1) ||| (1 <<< USICLK) ||| (1 <<< USITC)

/-- Source: the loop `while ((USISR & _BV(USIOIF)) == 0) { USICR = ...; }` of
`spi_transfer`.  The first argument bounds the number of iterations; the result carries
the number of iterations performed. -/
def spi_loop {σ : Type} (hw : UsiPort σ) : Nat → σ → Option (Nat × σ)
  | 0, u => if hw.read_USISR u &&& (1 <<< USIOIF) = 0 then none else some (0, u)
  | fuel + 1, u =>
    if hw.read_USISR u &&& (1 <<< USIOIF) = 0 then
      match spi_loop hw fuel (hw.write_USICR USICR_strobe u) with
      | none => none
      | some (n, t) => some (n + 1, t)
    else some (0, u)

/-- Source: `spi_transfer`.  Returns the byte read back, the number of loop iterations
and the peripheral state. -/
def spi_transfer {σ : Type} (hw : UsiPort σ) (fuel : Nat) (data : Nat) (u : σ) :
    Option (Nat × Nat × σ) :=
  let u1 := hw.write_USIDR data u
  let u2 := hw.write_USISR (sbi (hw.read_USISR u1) USIOIF) u1
  match spi_loop hw fuel u2 with
  | none => none
  | some (n, t) => some (hw.read_USIDR t, n, t)

/-- Modelled from the spec: state of the shift-register peripheral (the USI hardware is
not in the firmware source).  Section 4.3 and the testable properties of the spec give an
8-bit shift register, a transfer-complete flag and a software-toggled clock; the 4-bit
counter is the one of the ATtiny84 USI. -/
structure Usi where
  /-- Shift register. -/
  USIDR : Nat
  /-- Transfer-complete (counter overflow) flag. -/
  USIOIF : Bool
  /-- The 4-bit counter, low nibble of `USISR`. -/
  counter : Nat
  /-- Level of the clock pin. -/
  USCK : Bool
deriving DecidableEq

/-- Modelled from the spec: one software clock strobe.  The clock pin toggles and the
counter counts the edge; on a rising edge the register shifts left by one and takes the
data-in level `miso u` as its new bit 0; the flag is raised when the counter wraps, that
is after 16 edges or 8 shifted bits. -/
def Usi.strobe (miso : Usi → Bool) (u : Usi) : Usi :=
  { USIDR := if u.USCK then u.USIDR else (2 * u.USIDR + (miso u).toNat) % 256
    USIOIF := u.USIOIF || decide ((u.counter + 1) % 16 = 0)
    counter := (u.counter + 1) % 16
    USCK := !u.USCK }

/-- Modelled from the spec: register interface of the peripheral model.  Writing a one to
the flag bit of `USISR` clears the flag and the low nibble written loads the counter;
a store to `USICR` with `USITC` set strobes the clock. -/
def usiPort (miso : Usi → Bool) : UsiPort Usi where
  write_USIDR := fun v u => { u with USIDR := v % 256 }
  read_USIDR := fun u => u.USIDR
  read_USISR := fun u => (if u.USIOIF then 1 <<< USIOIF else 0) ||| (u.counter % 16)
  write_USISR := fun v u =>
    { u with USIOIF := u.USIOIF && !(v.testBit USIOIF), counter := v % 16 }
  write_USICR := fun v u => if v.testBit USITC then u.strobe miso else u

/-- Modelled from the spec: the test double whose data-in line echoes the data-out line,
data-out being the most significant bit of the shift register. -/
def echo (u : Usi) : Bool := u.USIDR.testBit 7

/-- Modelled from the spec: a peripheral that answers with the bits `d 0`, ..., `d 7`, one
per clock pulse (two counted edges per pulse). -/
def answering (d : Nat → Bool) (u : Usi) : Bool := d (u.counter / 2)

/-- The byte with bits `d 0` (most significant) to `d 7` (least significant). -/
def byte_of (d : Nat → Bool) : Nat :=
  128 * (d 0).toNat + 64 * (d 1).toNat + 32 * (d 2).toNat + 16 * (d 3).toNat +
  8 * (d 4).toNat + 4 * (d 5).toNat + 2 * (d 6).toNat + (d 7).toNat

/-! ## The completion poll of the radio sequencer -/

/-- What the completion poll does to the radio, in time order: the pin macros
`_NRF_CE_H`, `_NRF_CE_L`, `_NRF_CS_L`, `_NRF_CS_H`, the call `_delay_us(n)`, and a call
`spi_transfer(tx)` that returned `rx`. -/
inductive BusEvent where
  | NRF_CE_H
  | NRF_CE_L
  | NRF_CS_L
  | NRF_CS_H
  | delay_us (n : Nat)
  | transfer (tx rx : Nat)
deriving DecidableEq

/-- Source: the loop `do { i++; ... } while ((nrfStatus & 0x30) == 0);` of `loop()`
(lines 280-286), entered with `n` transfers already answered and counter `i`
(`uint16_t`).  `NRF_NOP` is the command byte of the radio header, `status n` the byte the
radio returns to transfer number `n`.  The first argument bounds the number of
iterations; the result is the trace, the final `nrfStatus` and the final `i`. -/
def poll_loop (NRF_NOP : Nat) (status : Nat → Nat) : Nat → Nat → Nat →
    Option (List BusEvent × Nat × Nat)
  | 0, _, _ => none
  | fuel + 1, n, i =>
    let i1 := (i + 1) % 65536
    let nrfStatus := status n
    let ev := [BusEvent.delay_us 15, BusEvent.NRF_CS_L, BusEvent.transfer NRF_NOP nrfStatus,
      BusEvent.NRF_CS_H]
    if nrfStatus &&& 0x30 = 0 then
      match poll_loop NRF_NOP status fuel (n + 1) i1 with
      | none => none
      | some (ev2, st, i2) => some (ev ++ ev2, st, i2)
    else some (ev, nrfStatus, i1)

/-- Source: lines 276-287 of `loop()`: `_NRF_CE_H; i = 0; do ... while (...); _NRF_CE_L;`. -/
def poll_section (NRF_NOP : Nat) (status : Nat → Nat) (fuel : Nat) :
    Option (List BusEvent × Nat × Nat) :=
  match poll_loop NRF_NOP status fuel 0 0 with
  | none => none
  | some (ev, st, i) => some (BusEvent.NRF_CE_H :: ev ++ [BusEvent.NRF_CE_L], st, i)

/-- The trace the specification expects for `k` status reads starting at transfer number `n`:
each read is a delay, chip-select low, one transfer, chip-select high. -/
def expected_reads (NRF_NOP : Nat) (status : Nat → Nat) : Nat → Nat → List BusEvent
  | _, 0 => []
  | n, k + 1 =>
    [BusEvent.delay_us 15, BusEvent.NRF_CS_L, BusEvent.transfer NRF_NOP (status n),
      BusEvent.NRF_CS_H] ++ expected_reads NRF_NOP status (n + 1) k

/-- Whether an event is a bus transfer. -/
def BusEvent.isTransfer : BusEvent → Bool
  | BusEvent.transfer _ _ => true
  | _ => false

/-! ## Frame lemmas for the two halves of the handler -/

theorem uart_update_millis (s : Machine) : (uart_update s)._millis = s._millis := by
  unfold uart_update; split_ifs <;> rfl

theorem uart_update_1000us (s : Machine) : (uart_update s)._1000us = s._1000us := by
  unfold uart_update; split_ifs <;> rfl

theorem uart_update_SREG_I (s : Machine) : (uart_update s).SREG_I = s.SREG_I := by
  unfold uart_update; split_ifs <;> rfl

theorem while_1000us_frame (fuel : Nat) (s : Machine) :
    (while_1000us fuel s).2.tx_buzy = s.tx_buzy ∧
    (while_1000us fuel s).2.bit_index = s.bit_index ∧
    (while_1000us fuel s).2._tx_buffer = s._tx_buffer ∧
    (while_1000us fuel s).2.PORTB = s.PORTB ∧
    (while_1000us fuel s).2.SREG_I = s.SREG_I := by
  induction fuel generalizing s with
  | zero => simp [while_1000us]
  | succ n ih =>
    unfold while_1000us
    split_ifs
    · simpa using ih _
    · simp

theorem millis_update_frame (s : Machine) :
    (millis_update s).tx_buzy = s.tx_buzy ∧
    (millis_update s).bit_index = s.bit_index ∧
    (millis_update s)._tx_buffer = s._tx_buffer ∧
    (millis_update s).PORTB = s.PORTB ∧
    (millis_update s).SREG_I = s.SREG_I := by
  simpa [millis_update, add_103] using while_1000us_frame _ (add_103 s)

theorem ISR_tx_buzy (s : Machine) : (ISR s).tx_buzy = (uart_update s).tx_buzy :=
  (millis_update_frame _).1

theorem ISR_bit_index (s : Machine) : (ISR s).bit_index = (uart_update s).bit_index :=
  (millis_update_frame _).2.1

theorem ISR_tx_buffer (s : Machine) : (ISR s)._tx_buffer = (uart_update s)._tx_buffer :=
  (millis_update_frame _).2.2.1

theorem ISR_PORTB (s : Machine) : (ISR s).PORTB = (uart_update s).PORTB :=
  (millis_update_frame _).2.2.2.1

theorem ISR_SREG_I (s : Machine) : (ISR s).SREG_I = s.SREG_I := by
  rw [ISR, (millis_update_frame _).2.2.2.2, uart_update_SREG_I]

theorem txLine_ISR (s : Machine) : txLine (ISR s) = txLine (uart_update s) := by
  simp [txLine, ISR_PORTB]

theorem ticks_succ_last (n : Nat) (s : Machine) : ticks (n + 1) s = ISR (ticks n s) := by
  induction n generalizing s with
  | zero => rfl
  | succ k ih => rw [ticks, ih (ISR s)]; rfl

theorem ticks_add (m n : Nat) (s : Machine) : ticks (m + n) s = ticks n (ticks m s) := by
  induction m generalizing s with
  | zero => simp [ticks]
  | succ k ih => rw [Nat.succ_add_eq_add_succ, Nat.add_succ, ticks, ih]; rfl

/-! ## The time base -/

theorem while_1000us_exit (fuel : Nat) (s : Machine) (h : s._1000us ≤ 1000) :
    while_1000us fuel s = (0, s) := by
  cases fuel with
  | zero => rfl
  | succ n => simp [while_1000us, Nat.not_lt.mpr h]

theorem while_1000us_once (fuel : Nat) (s : Machine) (h1 : 1000 < s._1000us)
    (h2 : s._1000us ≤ 2000) :
    while_1000us (fuel + 1) s =
      (1, { s with _millis := (s._millis + 1) % 2 ^ 64, _1000us := s._1000us - 1000 }) := by
  rw [while_1000us, if_pos h1, while_1000us_exit _ _ (by simp; omega)]

/-- The bound handed to the loop is never the reason it stops: it exits with its test
`_1000us > 1000` false. -/
theorem while_1000us_done (fuel : Nat) :
    ∀ s : Machine, s._1000us ≤ 1000 * fuel + 1000 → (while_1000us fuel s).2._1000us ≤ 1000 := by
  induction fuel with
  | zero => intro s h; simpa [while_1000us] using h
  | succ n ih =>
    intro s h
    rw [while_1000us]
    split_ifs with hc
    · exact ih _ (by simp only []; omega)
    · exact Nat.not_lt.mp hc

theorem millis_update_exits (s : Machine) : (millis_update s)._1000us ≤ 1000 := by
  unfold millis_update
  apply while_1000us_done
  have : 1 * (add_103 s)._1000us ≤ 1000 * (add_103 s)._1000us :=
    Nat.mul_le_mul_right _ (by decide)
  omega

/-- One update of the time base from an accumulator of at most 1000: the accumulator
does not overflow 16 bits, the loop body runs at most once, and no time is lost. -/
theorem millis_update_step (s : Machine) (h : s._1000us ≤ 1000) :
    (add_103 s)._1000us = s._1000us + 103 ∧
    (while_1000us (add_103 s)._1000us (add_103 s)).1 ≤ 1 ∧
    (millis_update s)._millis =
      (if (while_1000us (add_103 s)._1000us (add_103 s)).1 = 0 then s._millis
       else (s._millis + 1) % 2 ^ 64) ∧
    1000 * (while_1000us (add_103 s)._1000us (add_103 s)).1 + (millis_update s)._1000us
      = s._1000us + 103 ∧
    1 ≤ (millis_update s)._1000us ∧ (millis_update s)._1000us ≤ 1000 := by
  have ha : (add_103 s)._1000us = s._1000us + 103 := by
    simp only [add_103]; omega
  refine ⟨ha, ?_⟩
  unfold millis_update
  by_cases hc : 1000 < (add_103 s)._1000us
  · obtain ⟨k, hk⟩ : ∃ k, (add_103 s)._1000us = k + 1 := ⟨(add_103 s)._1000us - 1, by omega⟩
    have h2 : (add_103 s)._1000us ≤ 2000 := by omega
    have := while_1000us_once k (add_103 s) hc h2
    rw [← hk] at this
    rw [this]
    simp only [ha]
    refine ⟨le_refl _, ?_, ?_, ?_, ?_⟩
    · simp [add_103]
    · omega
    · omega
    · omega
  · rw [while_1000us_exit _ _ (by omega)]
    simp only [ha]
    refine ⟨by omega, ?_, ?_, ?_, ?_⟩
    · simp [add_103]
    · omega
    · omega
    · omega

theorem ISR_timebase (s : Machine) (h : s._1000us ≤ 1000) :
    (add_103 (uart_update s))._1000us = s._1000us + 103 ∧
    (while_1000us (add_103 (uart_update s))._1000us (add_103 (uart_update s))).1 ≤ 1 ∧
    (ISR s)._millis =
      (if (while_1000us (add_103 (uart_update s))._1000us (add_103 (uart_update s))).1 = 0
       then s._millis else (s._millis + 1) % 2 ^ 64) ∧
    1000 * (while_1000us (add_103 (uart_update s))._1000us (add_103 (uart_update s))).1
      + (ISR s)._1000us = s._1000us + 103 ∧
    1 ≤ (ISR s)._1000us ∧ (ISR s)._1000us ≤ 1000 := by
  have h1 : (uart_update s)._1000us ≤ 1000 := by rw [uart_update_1000us]; exact h
  have := millis_update_step (uart_update s) h1
  simpa only [uart_update_1000us, uart_update_millis, ISR] using this

/-- Accounting identity of the time base over `N` ticks, as long as the 64-bit counter
has not wrapped. -/
theorem timebase_ticks (s0 : Machine) (h0m : s0._millis = 0) (h0a : s0._1000us = 0)
    (N : Nat) (hN : 103 * N / 1000 < 2 ^ 64) :
    1000 * (ticks N s0)._millis + (ticks N s0)._1000us = 103 * N ∧
    (ticks N s0)._1000us ≤ 1000 ∧ (0 < N → 1 ≤ (ticks N s0)._1000us) := by
  induction N with
  | zero => simp [ticks, h0m, h0a]
  | succ n ih =>
    have hn : 103 * n / 1000 < 2 ^ 64 := by omega
    obtain ⟨ih1, ih2, -⟩ := ih hn
    obtain ⟨-, b1, b2, b3, b4, b5⟩ := ISR_timebase (ticks n s0) ih2
    rw [ticks_succ_last]
    refine ⟨?_, b5, fun _ => b4⟩
    rw [b2]
    split_ifs with hz
    · rw [hz] at b3; omega
    · have h1 : (while_1000us (add_103 (uart_update (ticks n s0)))._1000us
          (add_103 (uart_update (ticks n s0)))).1 = 1 := by omega
      rw [h1] at b3
      have : (ticks n s0)._millis + 1 < 2 ^ 64 := by omega
      rw [Nat.mod_eq_of_lt this]
      omega

/-! ## The transmitter -/

theorem testBit_sbi_TX (p : Nat) : (sbi p TX).testBit TX = true := by
  show ((p ||| 1 <<< 0) % 2 ^ 8).testBit 0 = true
  rw [Nat.testBit_mod_two_pow]
  simp [Nat.testBit_lor]

theorem testBit_cbi_TX (p : Nat) : (cbi p TX).testBit TX = false := by
  simp [cbi, TX, PB0, Nat.testBit_land]

theorem uart_update_idle (s : Machine) (h : s.tx_buzy = 0) : uart_update s = s := by
  simp [uart_update, h]

theorem ISR_idle (s : Machine) (h : s.tx_buzy = 0) :
    (ISR s).tx_buzy = 0 ∧ (ISR s).bit_index = s.bit_index ∧
    (ISR s)._tx_buffer = s._tx_buffer ∧ (ISR s).PORTB = s.PORTB := by
  rw [ISR_tx_buzy, ISR_bit_index, ISR_tx_buffer, ISR_PORTB, uart_update_idle s h]
  exact ⟨h, rfl, rfl, rfl⟩

theorem ticks_idle (n : Nat) (s : Machine) (h : s.tx_buzy = 0) :
    (ticks n s).tx_buzy = 0 ∧ (ticks n s).bit_index = s.bit_index ∧
    (ticks n s)._tx_buffer = s._tx_buffer ∧ (ticks n s).PORTB = s.PORTB := by
  induction n generalizing s with
  | zero => exact ⟨h, rfl, rfl, rfl⟩
  | succ k ih =>
    obtain ⟨a, b, c, d⟩ := ISR_idle s h
    obtain ⟨a1, b1, c1, d1⟩ := ih (ISR s) a
    exact ⟨a1, b1.trans b, c1.trans c, d1.trans d⟩

theorem ISR_start (s : Machine) (hb : s.tx_buzy ≠ 0) (hi : s.bit_index = 0) :
    (ISR s).tx_buzy = s.tx_buzy ∧ (ISR s).bit_index = 1 ∧
    (ISR s)._tx_buffer = s._tx_buffer ∧ txLine (ISR s) = false := by
  rw [ISR_tx_buzy, ISR_bit_index, ISR_tx_buffer, txLine_ISR]
  simp [uart_update, hb, hi, txLine, testBit_cbi_TX]

theorem ISR_data (s : Machine) (hb : s.tx_buzy ≠ 0) (h1 : 1 ≤ s.bit_index)
    (h8 : s.bit_index ≤ 8) :
    (ISR s).tx_buzy = s.tx_buzy ∧ (ISR s).bit_index = s.bit_index + 1 ∧
    (ISR s)._tx_buffer = s._tx_buffer >>> 1 ∧
    txLine (ISR s) = s._tx_buffer.testBit 0 := by
  rw [ISR_tx_buzy, ISR_bit_index, ISR_tx_buffer, txLine_ISR]
  have h0 : s.bit_index ≠ 0 := by omega
  have hm : (s.bit_index + 1) % 256 = s.bit_index + 1 := by omega
  have hand : s._tx_buffer &&& 1 = s._tx_buffer % 2 := Nat.and_one_is_mod _
  by_cases hc : s._tx_buffer % 2 = 1
  · have ht : s._tx_buffer.testBit 0 = true := by simp [Nat.testBit_zero, hc]
    simp [uart_update, hb, h0, h8, hc, txLine, testBit_sbi_TX, ht, hm]
  · have ht : s._tx_buffer.testBit 0 = false := by simp [Nat.testBit_zero, hc]
    have hc0 : s._tx_buffer % 2 = 0 := by omega
    simp [uart_update, hb, h0, h8, hc0, txLine, testBit_cbi_TX, ht, hm]

theorem ISR_stop (s : Machine) (hb : s.tx_buzy ≠ 0) (h9 : 9 ≤ s.bit_index) :
    (ISR s).tx_buzy = 0 ∧ (ISR s).bit_index = (s.bit_index + 1) % 256 ∧
    (ISR s)._tx_buffer = s._tx_buffer ∧ txLine (ISR s) = true := by
  rw [ISR_tx_buzy, ISR_bit_index, ISR_tx_buffer, txLine_ISR]
  have h0 : s.bit_index ≠ 0 := by omega
  have h8 : ¬ s.bit_index ≤ 8 := by omega
  simp [uart_update, hb, h0, h8, h9, txLine, testBit_sbi_TX]

/-- Progress of a frame: `k + 1` ticks after a byte `b` was loaded (`k ≤ 8`) the
transmitter is still busy, has counted `k + 1` bits, and the line carries the start bit
(`k = 0`) or data bit `k - 1`. -/
theorem frame_progress (s : Machine) (hb : s.tx_buzy ≠ 0) (hi : s.bit_index = 0)
    (k : Nat) (hk : k ≤ 8) :
    (ticks (k + 1) s).tx_buzy = s.tx_buzy ∧ (ticks (k + 1) s).bit_index = k + 1 ∧
    (ticks (k + 1) s)._tx_buffer = s._tx_buffer >>> k ∧
    txLine (ticks (k + 1) s) = (if k = 0 then false else s._tx_buffer.testBit (k - 1)) := by
  induction k with
  | zero =>
    obtain ⟨a, b, c, d⟩ := ISR_start s hb hi
    exact ⟨a, b, by simpa using c, by simpa [ticks] using d⟩
  | succ j ih =>
    obtain ⟨a, b, c, -⟩ := ih (by omega)
    rw [ticks_succ_last]
    obtain ⟨a1, b1, c1, d1⟩ := ISR_data (ticks (j + 1) s) (by rw [a]; exact hb)
      (by omega) (by omega)
    refine ⟨a1.trans a, by omega, ?_, ?_⟩
    · rw [c1, c, Nat.shiftRight_add]
    · rw [d1, c]
      simp [Nat.testBit_shiftRight]

theorem frame_stop (s : Machine) (hb : s.tx_buzy ≠ 0) (hi : s.bit_index = 0) :
    (ticks 10 s).tx_buzy = 0 ∧ (ticks 10 s).bit_index = 10 ∧ txLine (ticks 10 s) = true := by
  obtain ⟨a, b, -, -⟩ := frame_progress s hb hi 8 (le_refl _)
  have a9 : (ticks 9 s).tx_buzy = s.tx_buzy := a
  have b9 : (ticks 9 s).bit_index = 9 := b
  rw [ticks_succ_last]
  obtain ⟨a1, b1, -, d1⟩ := ISR_stop (ticks 9 s) (by rw [a9]; exact hb) (by omega)
  exact ⟨a1, by rw [b1, b9], d1⟩

/-- The ten line samples following the loading of a byte form its 8N1 frame. -/
theorem sampleTicks_frame (s : Machine) (hb : s.tx_buzy ≠ 0) (hi : s.bit_index = 0) :
    sampleTicks 10 s = expected_frame s._tx_buffer := by
  have e : sampleTicks 10 s =
      [txLine (ticks 1 s), txLine (ticks 2 s), txLine (ticks 3 s), txLine (ticks 4 s),
       txLine (ticks 5 s), txLine (ticks 6 s), txLine (ticks 7 s), txLine (ticks 8 s),
       txLine (ticks 9 s), txLine (ticks 10 s)] := rfl
  have p := fun k hk => (frame_progress s hb hi k hk).2.2.2
  rw [e, p 0 (by omega), p 1 (by omega), p 2 (by omega), p 3 (by omega), p 4 (by omega),
    p 5 (by omega), p 6 (by omega), p 7 (by omega), p 8 (by omega), (frame_stop s hb hi).2.2]
  rfl

theorem wait_idle_of_idle (fuel : Nat) (s : Machine) (h : s.tx_buzy = 0) :
    wait_idle fuel s = some ([], s) := by
  cases fuel <;> simp [wait_idle, h]

/-- If the flag is set for the first `n` ticks and clear after the `n`-th, the busy-wait
lasts exactly `n` ticks. -/
theorem wait_idle_exact (n : Nat) (s : Machine)
    (hbusy : ∀ j, j < n → (ticks j s).tx_buzy ≠ 0) (hidle : (ticks n s).tx_buzy = 0) :
    (∀ fuel, n ≤ fuel →
      wait_idle fuel s = some ((sampleTicks n s).map Event.tick, ticks n s)) ∧
    (∀ fuel, fuel < n → wait_idle fuel s = none) := by
  induction n generalizing s with
  | zero =>
    refine ⟨fun fuel _ => ?_, fun fuel hf => absurd hf (Nat.not_lt_zero _)⟩
    simpa [sampleTicks, ticks] using wait_idle_of_idle fuel s hidle
  | succ m ih =>
    have hb0 : s.tx_buzy ≠ 0 := hbusy 0 (Nat.succ_pos _)
    obtain ⟨ih1, ih2⟩ := ih (ISR s) (fun j hj => hbusy (j + 1) (by omega)) hidle
    constructor
    · intro fuel hf
      obtain ⟨f, rfl⟩ : ∃ f, fuel = f + 1 := ⟨fuel - 1, by omega⟩
      simp [wait_idle, hb0, ih1 f (by omega), sampleTicks, ticks]
    · intro fuel hf
      cases fuel with
      | zero => simp [wait_idle, hb0]
      | succ f => simp [wait_idle, hb0, ih2 f (by omega)]

/-- Busy-wait behind a freshly loaded byte: it lasts the ten ticks of that byte's frame. -/
theorem wait_idle_frame (s : Machine) (hb : s.tx_buzy ≠ 0) (hi : s.bit_index = 0) :
    (∀ fuel, 10 ≤ fuel →
      wait_idle fuel s = some ((expected_frame s._tx_buffer).map Event.tick, ticks 10 s)) ∧
    (∀ fuel, fuel < 10 → wait_idle fuel s = none) := by
  have hbusy : ∀ j, j < 10 → (ticks j s).tx_buzy ≠ 0 := by
    intro j hj
    cases j with
    | zero => exact hb
    | succ k => rw [(frame_progress s hb hi k (by omega)).1]; exact hb
  have := wait_idle_exact 10 s hbusy (frame_stop s hb hi).1
  rwa [sampleTicks_frame s hb hi] at this

/-! ## Transmitter claims -/

/-- C1: for every value `b` (in particular every byte) and every state whose `tx_buzy` is clear, `serial_write b`
returns at once having loaded `b`; the TX line sampled after each of the next ten timer
interrupts is low, then bits 0 to 7 of `b`, then high; `tx_buzy` is set after each of the
first nine interrupts and clear after the tenth; after any number of further interrupts
the line is still high and `tx_buzy` still clear. -/
theorem C1_frame_on_line (s : Machine) (b : Nat) (hidle : s.tx_buzy = 0) :
    (∀ fuel, serial_write fuel b s = some ([Event.queue b], load_byte b s)) ∧
    sampleTicks 10 (load_byte b s) = expected_frame b ∧
    expected_frame b = [false, b.testBit 0, b.testBit 1, b.testBit 2, b.testBit 3,
      b.testBit 4, b.testBit 5, b.testBit 6, b.testBit 7, true] ∧
    (∀ i, i < 8 → b.testBit i = decide (b / 2 ^ i % 2 = 1)) ∧
    (∀ k, 1 ≤ k → k ≤ 9 → (ticks k (load_byte b s)).tx_buzy ≠ 0) ∧
    (ticks 10 (load_byte b s)).tx_buzy = 0 ∧
    (∀ n, (ticks (10 + n) (load_byte b s)).tx_buzy = 0 ∧
      txLine (ticks (10 + n) (load_byte b s)) = true) := by
  have h1 : (load_byte b s).tx_buzy ≠ 0 := by simp [load_byte]
  have h2 : (load_byte b s).bit_index = 0 := rfl
  refine ⟨fun fuel => ?_, sampleTicks_frame _ h1 h2, rfl, ?_, ?_, (frame_stop _ h1 h2).1, ?_⟩
  · simp [serial_write, wait_idle_of_idle fuel s hidle]
  · intro i _
    exact Nat.testBit_to_div_mod
  · intro k hk1 hk9
    obtain ⟨j, rfl⟩ : ∃ j, k = j + 1 := ⟨k - 1, by omega⟩
    rw [(frame_progress _ h1 h2 j (by omega)).1]
    exact h1
  · intro n
    obtain ⟨a, -, c⟩ := frame_stop _ h1 h2
    obtain ⟨a1, -, -, d1⟩ := ticks_idle n _ a
    rw [ticks_add]
    exact ⟨a1, by rw [txLine, d1]; exact c⟩

theorem C1_frame_on_line_witness :
    init.tx_buzy = 0 ∧
    sampleTicks 10 (load_byte 0x41 init) = expected_frame 0x41 ∧
    (ticks 10 (load_byte 0x41 init)).tx_buzy = 0 :=
  ⟨rfl, (C1_frame_on_line init 0x41 rfl).2.1, (C1_frame_on_line init 0x41 rfl).2.2.2.2.2.1⟩

/-- C3: from an idle transmitter and for all values `b1`, `b2` (in particular all
bytes), `serial_write b1` immediately followed by `serial_write b2`: the second call spins for exactly the ten timer interrupts of the
first frame, during which the line carries the unaltered frame of `b1`, and only then
loads `b2`; the ten interrupts that follow put the frame of `b2` on the line. -/
theorem C3_back_to_back (s : Machine) (b1 b2 : Nat) (hidle : s.tx_buzy = 0) :
    (∀ fuel, serial_write fuel b1 s = some ([Event.queue b1], load_byte b1 s)) ∧
    (∀ fuel, 10 ≤ fuel → serial_write fuel b2 (load_byte b1 s) =
      some ((expected_frame b1).map Event.tick ++ [Event.queue b2],
            load_byte b2 (ticks 10 (load_byte b1 s)))) ∧
    (∀ fuel, fuel < 10 → serial_write fuel b2 (load_byte b1 s) = none) ∧
    (expected_frame b1).length = 10 ∧
    sampleTicks 10 (load_byte b1 s) ++ sampleTicks 10 (load_byte b2 (ticks 10 (load_byte b1 s)))
      = expected_frame b1 ++ expected_frame b2 := by
  have a1 : (load_byte b1 s).tx_buzy ≠ 0 := by simp [load_byte]
  have a2 : (load_byte b1 s).bit_index = 0 := rfl
  obtain ⟨w1, w2⟩ := wait_idle_frame (load_byte b1 s) a1 a2
  refine ⟨fun fuel => ?_, fun fuel hf => ?_, fun fuel hf => ?_, rfl, ?_⟩
  · simp [serial_write, wait_idle_of_idle fuel s hidle]
  · rw [serial_write, w1 fuel hf]; rfl
  · rw [serial_write, w2 fuel hf]
  · rw [sampleTicks_frame _ a1 a2,
      sampleTicks_frame (load_byte b2 (ticks 10 (load_byte b1 s))) (by simp [load_byte]) rfl]
    rfl

theorem C3_back_to_back_witness :
    init.tx_buzy = 0 ∧
    serial_write 10 0x42 (load_byte 0x41 init) =
      some ((expected_frame 0x41).map Event.tick ++ [Event.queue 0x42],
            load_byte 0x42 (ticks 10 (load_byte 0x41 init))) :=
  ⟨rfl, (C3_back_to_back init 0x41 0x42 rfl).2.1 10 (le_refl _)⟩

/-- C9: in every state reached from `bit_index = 0` (as at reset, where `tx_buzy = 0`
too) by timer interrupts
and `serial_write` stores (which happen only while `tx_buzy` is clear), `bit_index` is at
most 10, and at most 9 while `tx_buzy` is set; an interrupt taken with `tx_buzy` set and
`bit_index = 9` drives TX high, clears `tx_buzy` and leaves `bit_index = 10`. -/
theorem C9_bit_index_range (s0 : Machine) (h0i : s0.bit_index = 0)
    (acts : List Action) :
    (run acts s0).bit_index ≤ 10 ∧
    ((run acts s0).tx_buzy ≠ 0 → (run acts s0).bit_index ≤ 9) ∧
    ((run acts s0).tx_buzy ≠ 0 → (run acts s0).bit_index = 9 →
      txLine (ISR (run acts s0)) = true ∧ (ISR (run acts s0)).tx_buzy = 0 ∧
      (ISR (run acts s0)).bit_index = 10) := by
  have inv : ∀ (acts : List Action) (s : Machine),
      s.bit_index ≤ 10 → (s.tx_buzy ≠ 0 → s.bit_index ≤ 9) →
      (run acts s).bit_index ≤ 10 ∧ ((run acts s).tx_buzy ≠ 0 → (run acts s).bit_index ≤ 9) := by
    intro acts
    induction acts with
    | nil => intro s h1 h2; exact ⟨h1, h2⟩
    | cons a as ih =>
      intro s h1 h2
      rw [run]
      cases a with
      | tick =>
        apply ih
        · show (ISR s).bit_index ≤ 10
          by_cases hb : s.tx_buzy = 0
          · rw [(ISR_idle s hb).2.1]; exact h1
          · have h9 := h2 hb
            by_cases hz : s.bit_index = 0
            · rw [(ISR_start s hb hz).2.1]; omega
            · by_cases h8 : s.bit_index ≤ 8
              · rw [(ISR_data s hb (by omega) h8).2.1]; omega
              · rw [(ISR_stop s hb (by omega)).2.1]; omega
        · show (ISR s).tx_buzy ≠ 0 → (ISR s).bit_index ≤ 9
          intro hb1
          by_cases hb : s.tx_buzy = 0
          · exact absurd (ISR_idle s hb).1 hb1
          · have h9 := h2 hb
            by_cases hz : s.bit_index = 0
            · rw [(ISR_start s hb hz).2.1]; omega
            · by_cases h8 : s.bit_index ≤ 8
              · rw [(ISR_data s hb (by omega) h8).2.1]; omega
              · exact absurd (ISR_stop s hb (by omega)).1 hb1
      | write b =>
        apply ih
        · show (Action.apply (Action.write b) s).bit_index ≤ 10
          simp only [Action.apply]
          split_ifs
          · exact h1
          · simp [load_byte]
        · show (Action.apply (Action.write b) s).tx_buzy ≠ 0 →
            (Action.apply (Action.write b) s).bit_index ≤ 9
          simp only [Action.apply]
          split_ifs
          · exact h2
          · simp [load_byte]
  obtain ⟨i1, i2⟩ := inv acts s0 (by omega) (fun _ => by omega)
  refine ⟨i1, i2, fun hb h9 => ?_⟩
  obtain ⟨a, b, -, d⟩ := ISR_stop (run acts s0) hb (by omega)
  exact ⟨d, a, by rw [b, h9]⟩

theorem C9_bit_index_range_witness :
    init.bit_index = 0 ∧
    (run [Action.write 0x41, Action.tick, Action.tick] init).bit_index ≤ 10 :=
  ⟨rfl, (C9_bit_index_range init rfl [Action.write 0x41, Action.tick, Action.tick]).1⟩

/-! ## Time base claims -/

/-- C10: from a zeroed time base and while the 64-bit counter has not wrapped, after `N`
timer interrupts `1000 * _millis + _1000us = 103 * N` and `_1000us ≤ 1000`; in each of
these interrupts the accumulator before the reduction loop is the old value plus 103
without 16-bit overflow and at most 1103, the loop body runs at most once, and `_millis`
is unchanged or incremented by one. -/
theorem C10_time_accounting (s0 : Machine) (h0m : s0._millis = 0) (h0a : s0._1000us = 0)
    (N : Nat) (hN : 103 * N / 1000 < 2 ^ 64) :
    1000 * (ticks N s0)._millis + (ticks N s0)._1000us = 103 * N ∧
    (ticks N s0)._1000us ≤ 1000 ∧
    (∀ k, k < N →
      (add_103 (uart_update (ticks k s0)))._1000us = (ticks k s0)._1000us + 103 ∧
      (add_103 (uart_update (ticks k s0)))._1000us ≤ 1103 ∧
      (while_1000us (add_103 (uart_update (ticks k s0)))._1000us
        (add_103 (uart_update (ticks k s0)))).1 ≤ 1 ∧
      ((ticks (k + 1) s0)._millis = (ticks k s0)._millis ∨
       (ticks (k + 1) s0)._millis = (ticks k s0)._millis + 1)) := by
  obtain ⟨t1, t2, -⟩ := timebase_ticks s0 h0m h0a N hN
  refine ⟨t1, t2, fun k hk => ?_⟩
  have hk0 : 103 * k / 1000 < 2 ^ 64 := by omega
  have hk1 : 103 * (k + 1) / 1000 < 2 ^ 64 := by omega
  obtain ⟨u1, u2, -⟩ := timebase_ticks s0 h0m h0a k hk0
  obtain ⟨v1, -, -⟩ := timebase_ticks s0 h0m h0a (k + 1) hk1
  obtain ⟨b0, b1, b2, b3, -, -⟩ := ISR_timebase (ticks k s0) u2
  refine ⟨b0, by omega, b1, ?_⟩
  rw [ticks_succ_last] at v1 ⊢
  rw [b2]
  split_ifs with hz
  · exact Or.inl rfl
  · right
    have : (ticks k s0)._millis + 1 < 2 ^ 64 := by omega
    exact Nat.mod_eq_of_lt this

theorem C10_time_accounting_witness :
    init._millis = 0 ∧ init._1000us = 0 ∧ 103 * 10 / 1000 < 2 ^ 64 ∧
    1000 * (ticks 10 init)._millis + (ticks 10 init)._1000us = 103 * 10 ∧
    (ticks 10 init)._1000us ≤ 1000 :=
  ⟨rfl, rfl, by decide,
    (C10_time_accounting init rfl rfl 10 (by decide)).1,
    (C10_time_accounting init rfl rfl 10 (by decide)).2.1⟩

/-- C2: after 1000 timer interrupts from the zeroed time base, `_millis` is 102 whereas
`103 * 1000 / 1000 = 103`: exactly 103 ms have elapsed but the loop test
`_1000us > 1000` leaves the last millisecond in the accumulator. -/
theorem C2_millis_lags_at_1000_ticks :
    (ticks 1000 init)._millis = 102 ∧ 103 * 1000 / 1000 = 103 ∧
    1000 * (103 * 1000 / 1000) - 1000 * (ticks 1000 init)._millis = 1000 := by
  obtain ⟨t1, t2, t3⟩ := timebase_ticks init rfl rfl 1000 (by decide)
  have t4 := t3 (by decide)
  have : (ticks 1000 init)._millis = 102 := by omega
  rw [this]
  decide

/-- C4: after 1000 timer interrupts from the zeroed time base, the accumulator
`_1000us` is exactly 1000, hence not strictly below 1000 after the update step. -/
theorem C4_accumulator_reaches_1000 :
    (ticks 1000 init)._1000us = 1000 ∧ ¬ (ticks 1000 init)._1000us < 1000 := by
  obtain ⟨t1, t2, t3⟩ := timebase_ticks init rfl rfl 1000 (by decide)
  have t4 := t3 (by decide)
  omega

/-- C8 does not hold as stated: entered with interrupts disabled, `millis()` returns with
interrupts enabled. -/
theorem C8_flag_not_restored :
    (millis { init with SREG_I := false }).2.SREG_I ≠ ({ init with SREG_I := false } : Machine).SREG_I := by
  decide

/-- C8 (amended): for every machine state, `millis()` returns the current `_millis`, leaves
the counter, the accumulator, the transmitter state and `PORTB` unchanged, and returns
with the global interrupt-enable flag set; the flag on return therefore equals its value
on entry exactly when interrupts were enabled on entry. -/
theorem C8_millis_reads_counter (s : Machine) :
    (millis s).1 = s._millis ∧
    (millis s).2 = { s with SREG_I := true } ∧
    ((millis s).2.SREG_I = s.SREG_I ↔ s.SREG_I = true) := by
  refine ⟨rfl, rfl, ?_⟩
  show (true = s.SREG_I) ↔ s.SREG_I = true
  exact eq_comm

/-! ## String output -/

theorem queued_append (ev1 ev2 : List Event) : queued (ev1 ++ ev2) = queued ev1 ++ queued ev2 := by
  induction ev1 with
  | nil => rfl
  | cons e es ih => cases e <;> simp [queued, ih]

/-- From any state the busy-wait ends within ten timer interrupts. -/
theorem wait_idle_terminates (fuel : Nat) (s : Machine)
    (h : s.tx_buzy ≠ 0 → 10 ≤ fuel + min s.bit_index 9) :
    ∃ ev t, wait_idle fuel s = some (ev, t) ∧ queued ev = [] ∧ t.tx_buzy = 0 := by
  induction fuel generalizing s with
  | zero =>
    by_cases hb : s.tx_buzy = 0
    · exact ⟨[], s, wait_idle_of_idle 0 s hb, rfl, hb⟩
    · have := h hb
      omega
  | succ f ih =>
    by_cases hb : s.tx_buzy = 0
    · exact ⟨[], s, wait_idle_of_idle _ s hb, rfl, hb⟩
    · have h10 := h hb
      have key : (ISR s).tx_buzy ≠ 0 → 10 ≤ f + min (ISR s).bit_index 9 := by
        intro hb1
        by_cases hz : s.bit_index = 0
        · rw [(ISR_start s hb hz).2.1]; omega
        · by_cases h8 : s.bit_index ≤ 8
          · rw [(ISR_data s hb (by omega) h8).2.1]; omega
          · exact absurd (ISR_stop s hb (by omega)).1 hb1
      obtain ⟨ev, t, e1, e2, e3⟩ := ih (ISR s) key
      exact ⟨Event.tick (txLine (ISR s)) :: ev, t, by simp [wait_idle, hb, e1],
        by simpa [queued] using e2, e3⟩

/-- With room for ten timer interrupts `serial_write` always returns, having queued
exactly its argument. -/
theorem serial_write_terminates (wfuel : Nat) (hw : 10 ≤ wfuel) (b : Nat) (s : Machine) :
    ∃ ev t, serial_write wfuel b s = some (ev, t) ∧ queued ev = [b] := by
  obtain ⟨ev, t, e1, e2, -⟩ := wait_idle_terminates wfuel s (fun _ => by omega)
  exact ⟨ev ++ [Event.queue b], load_byte b t, by simp [serial_write, e1],
    by simp [queued_append, e2, queued]⟩

/-- Strings shorter than 256 characters are printed completely and in order. -/
theorem serial_print_loop_short (wfuel : Nat) (hw : 10 ≤ wfuel) (str : List Nat)
    (hnz : ∀ c ∈ str, c ≠ 0) (hlen : str.length ≤ 255) (d : Nat) :
    ∀ (i fuel : Nat) (s : Machine), i + d = str.length → d + 1 ≤ fuel →
      ∃ ev t, serial_print_loop wfuel str fuel i s = some (ev, t) ∧ queued ev = str.drop i := by
  induction d with
  | zero =>
    intro i fuel s hi hf
    obtain ⟨f, rfl⟩ : ∃ f, fuel = f + 1 := ⟨fuel - 1, by omega⟩
    have h0 : str.getD i 0 = 0 := by
      rw [List.getD_eq_getElem?_getD, List.getElem?_eq_none (by omega)]; rfl
    refine ⟨[], s, by rw [serial_print_loop, if_neg (not_not.mpr h0)], ?_⟩
    rw [List.drop_eq_nil_of_le (by omega)]; rfl
  | succ e ih =>
    intro i fuel s hi hf
    obtain ⟨f, rfl⟩ : ∃ f, fuel = f + 1 := ⟨fuel - 1, by omega⟩
    have hlt : i < str.length := by omega
    have hget : str.getD i 0 = str[i] := by
      rw [List.getD_eq_getElem?_getD, List.getElem?_eq_getElem hlt]; rfl
    have hne : str.getD i 0 ≠ 0 := by rw [hget]; exact hnz _ (List.getElem_mem _)
    obtain ⟨ev1, s1, w1, w2⟩ := serial_write_terminates wfuel hw (str.getD i 0) s
    have hwrap : (i + 1) % 256 = i + 1 := by omega
    obtain ⟨ev2, s2, p1, p2⟩ := ih (i + 1) f s1 (by omega) (by omega)
    refine ⟨ev1 ++ ev2, s2, ?_, ?_⟩
    · rw [serial_print_loop, if_pos hne, w1]
      simp only [hwrap, p1]
    · rw [queued_append, w2, p2, hget]
      simp

/-- Once all of `str[0..255]` are non-zero the loop of `serial_print` cannot exit: the
8-bit index wraps to 0 before it can reach a terminator. -/
theorem serial_print_loop_long (wfuel : Nat) (str : List Nat)
    (hnz : ∀ i, i < 256 → str.getD i 0 ≠ 0) (fuel : Nat) :
    ∀ (i : Nat) (s : Machine), i < 256 → serial_print_loop wfuel str fuel i s = none := by
  induction fuel with
  | zero => intro i s _; rfl
  | succ f ih =>
    intro i s hi
    have hne := hnz i hi
    rw [serial_print_loop, if_pos hne]
    cases hw : serial_write wfuel (str.getD i 0) s with
    | none => rfl
    | some r =>
      obtain ⟨ev, s1⟩ := r
      simp only []
      rw [ih ((i + 1) % 256) s1 (Nat.mod_lt _ (by decide))]

/-- C5: on the 256-character string `"AA...A"`, `serial_print` does not return, whatever
bounds are put on its loop and on the busy-waits; on the same string cut to 255
characters it returns having queued exactly these characters. -/
theorem C5_serial_print_256_never_returns (wfuel fuel : Nat) (s : Machine) :
    serial_print wfuel fuel (List.replicate 256 0x41) s = none ∧
    ∃ ev t, serial_print 10 256 (List.replicate 255 0x41) s = some (ev, t) ∧
      queued ev = List.replicate 255 0x41 := by
  constructor
  · apply serial_print_loop_long
    · intro i hi
      rw [List.getD_eq_getElem?_getD, List.getElem?_replicate]
      simp [hi]
    · decide
  · have h := serial_print_loop_short 10 (le_refl _) (List.replicate 255 0x41)
      (fun c hc => by rw [List.eq_of_mem_replicate hc]; decide)
      (by rw [List.length_replicate]) 255 0 256 s
      (by rw [List.length_replicate]) (by decide)
    exact h

/-! ## The bus primitive -/

/-- Peripheral state when the loop of `spi_transfer` is entered: data loaded, flag
cleared, counter and clock level as they were. -/
theorem spi_transfer_entry (miso : Usi → Bool) (x : Nat) (u : Usi) (hc : u.counter = 0) :
    (usiPort miso).write_USISR
      (sbi ((usiPort miso).read_USISR ((usiPort miso).write_USIDR x u)) USIOIF)
      ((usiPort miso).write_USIDR x u)
    = { USIDR := x % 256, USIOIF := false, counter := 0, USCK := u.USCK } := by
  cases hf : u.USIOIF
  · simp [usiPort, hc, hf, sbi, USIOIF]
  · simp [usiPort, hc, hf, sbi, USIOIF]
    decide

theorem flag_test_clear (u : Usi) (miso : Usi → Bool) (hf : u.USIOIF = false) :
    (usiPort miso).read_USISR u &&& (1 <<< USIOIF) = 0 := by
  have h : ∀ c, c < 16 → c &&& 64 = 0 := by decide
  simpa [usiPort, hf, USIOIF] using h (u.counter % 16) (Nat.mod_lt _ (by decide))

theorem flag_test_set (u : Usi) (miso : Usi → Bool) (hf : u.USIOIF = true) :
    (usiPort miso).read_USISR u &&& (1 <<< USIOIF) ≠ 0 := by
  have h : ∀ c, c < 16 → (64 ||| c) &&& 64 ≠ 0 := by decide
  simpa [usiPort, hf, USIOIF] using h (u.counter % 16) (Nat.mod_lt _ (by decide))

theorem write_USICR_strobe (u : Usi) (miso : Usi → Bool) :
    (usiPort miso).write_USICR USICR_strobe u = u.strobe miso := by
  have h : USICR_strobe.testBit USITC = true := by decide
  simp [usiPort, h]

/-- If the flag stays clear over the first `n` strobes and is set by the `n`-th, the loop
of `spi_transfer` runs exactly `n` times. -/
theorem spi_loop_exact (miso : Usi → Bool) (n : Nat) (u : Usi)
    (hlow : ∀ j, j < n → ((Usi.strobe miso)^[j] u).USIOIF = false)
    (hhigh : ((Usi.strobe miso)^[n] u).USIOIF = true) :
    (∀ fuel, n ≤ fuel → spi_loop (usiPort miso) fuel u = some (n, (Usi.strobe miso)^[n] u)) ∧
    (∀ fuel, fuel < n → spi_loop (usiPort miso) fuel u = none) := by
  induction n generalizing u with
  | zero =>
    refine ⟨fun fuel _ => ?_, fun fuel hf => absurd hf (Nat.not_lt_zero _)⟩
    have := flag_test_set u miso hhigh
    cases fuel <;> simp [spi_loop, this]
  | succ m ih =>
    have h0 := flag_test_clear u miso (hlow 0 (Nat.succ_pos _))
    obtain ⟨ih1, ih2⟩ := ih (u.strobe miso)
      (fun j hj => by simpa [Function.iterate_succ_apply] using hlow (j + 1) (by omega))
      (by simpa [Function.iterate_succ_apply] using hhigh)
    constructor
    · intro fuel hf
      obtain ⟨f, rfl⟩ : ∃ f, fuel = f + 1 := ⟨fuel - 1, by omega⟩
      simp [spi_loop, h0, write_USICR_strobe, ih1 f (by omega), Function.iterate_succ_apply]
    · intro fuel hf
      cases fuel with
      | zero => simp [spi_loop, h0]
      | succ f => simp [spi_loop, h0, write_USICR_strobe, ih2 f (by omega)]

/-- Counter and flag over the sixteen counted edges of a transfer. -/
theorem strobe_iter_ctrl (miso : Usi → Bool) (u : Usi) (hc : u.counter = 0)
    (hf : u.USIOIF = false) (j : Nat) (hj : j ≤ 16) :
    ((Usi.strobe miso)^[j] u).counter = j % 16 ∧
    ((Usi.strobe miso)^[j] u).USIOIF = decide (j = 16) := by
  induction j with
  | zero => simp [hc, hf]
  | succ k ih =>
    obtain ⟨a, b⟩ := ih (by omega)
    rw [Function.iterate_succ_apply']
    simp only [Usi.strobe, a, b]
    have hk : k < 16 := by omega
    interval_cases k <;> simp

set_option maxRecDepth 100000 in
theorem strobe16_echo (x : Nat) (hx : x < 256) (ck : Bool) :
    ((Usi.strobe echo)^[16] { USIDR := x, USIOIF := false, counter := 0, USCK := ck }).USIDR
      = x := by
  have h : ∀ x, x < 256 → ∀ ck : Bool,
      ((Usi.strobe echo)^[16]
        { USIDR := x, USIOIF := false, counter := 0, USCK := ck }).USIDR = x := by
    decide
  exact h x hx ck

theorem strobe16_answering (d : Nat → Bool) (x : Nat) (ck : Bool) :
    ((Usi.strobe (answering d))^[16]
      { USIDR := x, USIOIF := false, counter := 0, USCK := ck }).USIDR = byte_of d := by
  have b0 := Bool.toNat_le (d 0)
  have b1 := Bool.toNat_le (d 1)
  have b2 := Bool.toNat_le (d 2)
  have b3 := Bool.toNat_le (d 3)
  have b4 := Bool.toNat_le (d 4)
  have b5 := Bool.toNat_le (d 5)
  have b6 := Bool.toNat_le (d 6)
  have b7 := Bool.toNat_le (d 7)
  cases ck <;>
  · simp only [Function.iterate_succ_apply, Function.iterate_zero, id, Usi.strobe, answering,
      byte_of, Bool.not_true, Bool.not_false, if_true, if_false, Bool.false_eq_true]
    norm_num
    omega

/-- C6: with the peripheral model started with its counter at 0, `spi_transfer x` on the
echoing test double returns `x` after exactly 16 loop iterations (two counted clock edges
per bit); on a peripheral answering with bits `d 0 .. d 7` it returns the byte made of
these bits, most significant first; with fewer than 16 iterations allowed the loop has
not finished. -/
theorem C6_spi_transfer_echo (x : Nat) (hx : x < 256) (u : Usi) (hc : u.counter = 0) :
    (∀ fuel, 16 ≤ fuel → ∃ t, spi_transfer (usiPort echo) fuel x u = some (x, 16, t)) ∧
    (∀ (d : Nat → Bool) fuel, 16 ≤ fuel →
      ∃ t, spi_transfer (usiPort (answering d)) fuel x u = some (byte_of d, 16, t)) ∧
    (∀ (miso : Usi → Bool) fuel, fuel < 16 → spi_transfer (usiPort miso) fuel x u = none) := by
  have hxm : x % 256 = x := Nat.mod_eq_of_lt hx
  have loop : ∀ miso : Usi → Bool,
      (∀ fuel, 16 ≤ fuel →
        spi_loop (usiPort miso) fuel
          { USIDR := x, USIOIF := false, counter := 0, USCK := u.USCK } =
        some (16, (Usi.strobe miso)^[16]
          { USIDR := x, USIOIF := false, counter := 0, USCK := u.USCK })) ∧
      (∀ fuel, fuel < 16 →
        spi_loop (usiPort miso) fuel
          { USIDR := x, USIOIF := false, counter := 0, USCK := u.USCK } = none) := by
    intro miso
    apply spi_loop_exact
    · intro j hj
      rw [(strobe_iter_ctrl miso _ rfl rfl j (by omega)).2]
      simp; omega
    · rw [(strobe_iter_ctrl miso _ rfl rfl 16 (le_refl _)).2]
      simp
  refine ⟨fun fuel hf => ?_, fun d fuel hf => ?_, fun miso fuel hf => ?_⟩
  · refine ⟨(Usi.strobe echo)^[16]
      { USIDR := x, USIOIF := false, counter := 0, USCK := u.USCK }, ?_⟩
    simp only [spi_transfer]
    rw [spi_transfer_entry echo x u hc, hxm, (loop echo).1 fuel hf]
    simp only [usiPort]
    rw [strobe16_echo x hx]
  · refine ⟨(Usi.strobe (answering d))^[16]
      { USIDR := x, USIOIF := false, counter := 0, USCK := u.USCK }, ?_⟩
    simp only [spi_transfer]
    rw [spi_transfer_entry (answering d) x u hc, hxm, (loop (answering d)).1 fuel hf]
    simp only [usiPort]
    rw [strobe16_answering d x]
  · simp only [spi_transfer]
    rw [spi_transfer_entry miso x u hc, hxm, (loop miso).2 fuel hf]

theorem C6_spi_transfer_echo_witness :
    (0xA5 : Nat) < 256 ∧
    (({ USIDR := 0, USIOIF := true, counter := 0, USCK := false } : Usi)).counter = 0 ∧
    ∃ t, spi_transfer (usiPort echo) 16 0xA5
      { USIDR := 0, USIOIF := true, counter := 0, USCK := false } = some (0xA5, 16, t) :=
  ⟨by decide, rfl,
    (C6_spi_transfer_echo 0xA5 (by decide)
      { USIDR := 0, USIOIF := true, counter := 0, USCK := false } rfl).1 16 (le_refl _)⟩

/-! ## The completion poll -/

theorem poll_loop_exact (NRF_NOP : Nat) (status : Nat → Nat) (m : Nat) :
    ∀ (n i : Nat), status (n + m) &&& 0x30 ≠ 0 →
      (∀ j, j < m → status (n + j) &&& 0x30 = 0) →
      (∀ fuel, m < fuel → poll_loop NRF_NOP status fuel n i =
        some (expected_reads NRF_NOP status n (m + 1), status (n + m), (i + m + 1) % 65536)) ∧
      (∀ fuel, fuel ≤ m → poll_loop NRF_NOP status fuel n i = none) := by
  induction m with
  | zero =>
    intro n i hhit _
    constructor
    · intro fuel hf
      obtain ⟨f, rfl⟩ : ∃ f, fuel = f + 1 := ⟨fuel - 1, by omega⟩
      have hhit0 : status n &&& 0x30 ≠ 0 := hhit
      simp [poll_loop, hhit0, expected_reads]
    · intro fuel hf
      obtain rfl : fuel = 0 := by omega
      rfl
  | succ k ih =>
    intro n i hhit hbefore
    have h0 : status n &&& 0x30 = 0 := hbefore 0 (Nat.succ_pos _)
    obtain ⟨ih1, ih2⟩ := ih (n + 1) ((i + 1) % 65536)
      (by rw [show n + 1 + k = n + (k + 1) by omega]; exact hhit)
      (fun j hj => by rw [show n + 1 + j = n + (j + 1) by omega]; exact hbefore (j + 1) (by omega))
    constructor
    · intro fuel hf
      obtain ⟨f, rfl⟩ : ∃ f, fuel = f + 1 := ⟨fuel - 1, by omega⟩
      rw [poll_loop]
      simp only [h0, if_true]
      rw [ih1 f (by omega)]
      simp only [expected_reads, show n + 1 + k = n + (k + 1) by omega]
      congr 3
      omega
    · intro fuel hf
      cases fuel with
      | zero => rfl
      | succ f =>
        rw [poll_loop]
        simp only [h0, if_true]
        rw [ih2 f (by omega)]

theorem expected_reads_counts (NRF_NOP : Nat) (status : Nat → Nat) (k : Nat) :
    ∀ n, (expected_reads NRF_NOP status n k).countP BusEvent.isTransfer = k ∧
      (expected_reads NRF_NOP status n k).count BusEvent.NRF_CE_L = 0 ∧
      (expected_reads NRF_NOP status n k).count BusEvent.NRF_CS_L = k ∧
      (expected_reads NRF_NOP status n k).count BusEvent.NRF_CS_H = k := by
  induction k with
  | zero => intro n; simp [expected_reads]
  | succ j ih =>
    intro n
    obtain ⟨a, b, c, d⟩ := ih (n + 1)
    simp [expected_reads, List.countP_cons, List.count_cons, BusEvent.isTransfer, a, b, c, d]

/-- C7: let transfer number `m` (counted from 0) be the first whose status byte has a
bit of `0x30` set.  Then the poll drives CE high, performs exactly `m + 1` status reads,
each one a chip-select low, one NOP transfer, chip-select high, leaves the loop with
`nrfStatus` equal to that byte, and drives CE low once, right after the last read.  The
bytes `0x10` and `0x20` both satisfy the exit test. -/
theorem C7_poll_until_status (NRF_NOP : Nat) (status : Nat → Nat) (m : Nat)
    (hhit : status m &&& 0x30 ≠ 0) (hbefore : ∀ j, j < m → status j &&& 0x30 = 0) :
    (∀ fuel, m < fuel → poll_section NRF_NOP status fuel =
      some (BusEvent.NRF_CE_H :: expected_reads NRF_NOP status 0 (m + 1) ++ [BusEvent.NRF_CE_L],
            status m, (m + 1) % 65536)) ∧
    (∀ fuel, fuel ≤ m → poll_section NRF_NOP status fuel = none) ∧
    (BusEvent.NRF_CE_H :: expected_reads NRF_NOP status 0 (m + 1) ++
      [BusEvent.NRF_CE_L]).countP BusEvent.isTransfer = m + 1 ∧
    (BusEvent.NRF_CE_H :: expected_reads NRF_NOP status 0 (m + 1) ++
      [BusEvent.NRF_CE_L]).count BusEvent.NRF_CE_L = 1 ∧
    (0x10 &&& 0x30 ≠ 0 ∧ 0x20 &&& 0x30 ≠ 0) := by
  obtain ⟨p1, p2⟩ := poll_loop_exact NRF_NOP status m 0 0
    (by simpa using hhit) (fun j hj => by simpa using hbefore j hj)
  obtain ⟨c1, c2, -, -⟩ := expected_reads_counts NRF_NOP status (m + 1) 0
  refine ⟨fun fuel hf => ?_, fun fuel hf => ?_, ?_, ?_, by decide⟩
  · rw [poll_section, p1 fuel hf]
    simp
  · rw [poll_section, p2 fuel hf]
  · rw [List.cons_append, List.countP_cons, List.countP_append, c1]
    simp [BusEvent.isTransfer]
  · rw [List.cons_append, List.count_cons, List.count_append, c2]
    simp

theorem C7_poll_until_status_witness :
    (fun n => if n = 2 then 0x20 else 0x0E) 2 &&& 0x30 ≠ 0 ∧
    (∀ j, j < 2 → (fun n => if n = 2 then 0x20 else 0x0E) j &&& 0x30 = 0) ∧
    poll_section 0xFF (fun n => if n = 2 then 0x20 else 0x0E) 3 =
      some (BusEvent.NRF_CE_H ::
              expected_reads 0xFF (fun n => if n = 2 then 0x20 else 0x0E) 0 (2 + 1) ++
              [BusEvent.NRF_CE_L],
            (fun n => if n = 2 then 0x20 else 0x0E) 2, (2 + 1) % 65536) :=
  ⟨by decide, by decide,
    (C7_poll_until_status 0xFF (fun n => if n = 2 then 0x20 else 0x0E) 2
      (by decide) (by decide)).1 3 (by decide)⟩

end TinySpi
